import Mathlib

/-!
Shallow embedding of the hit-testing / interaction-resolution engine of
`src/core/core.interaction.js` (Chart.js interaction module).

Pixel coordinates are modelled by exact rationals `ℚ`.  Elements are opaque
capabilities: their geometry queries (`inRange`, `inXRange`, `inYRange`) are
function-valued fields, exactly as the source treats them as virtual methods.
Mutable accumulation through closures (`items.push` inside handler callbacks)
is rendered as explicit list construction / folds over the ordered list of
`(element, datasetIndex, index)` triples on which the source invokes its
handler.
-/

namespace ChartInteraction

/-- A chart-local pixel position `{x, y}`. -/
structure Pos where
  x : ℚ
  y : ℚ
deriving DecidableEq

/-- The chart area rectangle `{left, top, right, bottom}`. -/
structure Rect where
  left : ℚ
  top : ℚ
  right : ℚ
  bottom : ℚ
deriving DecidableEq

/-- The axis mode strings accepted by the module. -/
inductive Axis where
  | x
  | y
  | xy
deriving DecidableEq

/-- A scale's own axis: a scale is horizontal or vertical, so `scale.axis`
is the string `x` or the string `y`, never `xy`. -/
inductive ScaleAxis where
  | x
  | y
deriving DecidableEq

/-- The axis string carried by a scale, as compared against a query axis
string in `binarySearch` (`axis === iScale.axis`). -/
def ScaleAxis.toAxis : ScaleAxis → Axis
  | .x => Axis.x
  | .y => Axis.y

/-- The fields of the index scale consulted by `binarySearch`:
`iScale.axis` and `iScale._reversePixels`. -/
structure Scale where
  axis : ScaleAxis
  reversePixels : Bool

/-- Opaque element capability: geometry queries, the `skip` flag, and the
coordinates `x`, `y` along each axis (the properties `element[axis]` read by
the sorted-array key lookups). -/
structure Element where
  x : ℚ
  y : ℚ
  skip : Bool
  inRange : ℚ → ℚ → Bool
  inXRange : ℚ → Bool
  inYRange : ℚ → Bool
  getCenterPoint : Pos
  getRange : Axis → Option ℚ

/-- The element's coordinate along an axis (`element[axis]` in the lookups).
The lookups are only ever invoked with `axis = x` or `axis = y` (guarded by
`axis === iScale.axis` in `binarySearch`), so the `xy` value is never
consulted; `0` is an arbitrary placeholder. -/
def Element.key (el : Element) : Axis → ℚ
  | .x => el.x
  | .y => el.y
  | .xy => 0

/-- One dataset meta, with the fields used by this module: the dataset
`index`, its element sequence `data`, the `_sorted` flag, the controller's
cached index scale, and the controller's `_sharedOptions` truthiness. -/
structure Metaset where
  index : Nat
  data : List Element
  sorted : Bool
  iScale : Option Scale
  sharedOptions : Bool

/-- The chart capability: `_getSortedVisibleDatasetMetas()` (the field
`metasets`), `chartArea`, and `getDatasetMeta(index)`. -/
structure Chart where
  metasets : List Metaset
  chartArea : Rect
  getDatasetMeta : Nat → Metaset

/-- One resolved hit `{element, datasetIndex, index}`. -/
structure Match where
  element : Element
  datasetIndex : Nat
  index : Nat

/-- An index range `{lo, hi}` returned by the search-range computation;
`hi < lo` denotes an empty range (e.g. `{0, -1}` for empty data). -/
structure Lookup where
  lo : ℤ
  hi : ℤ
deriving DecidableEq

/-- Interaction options `{axis?, intersect?}`; a missing `axis` is `none`
(each mode substitutes its default). -/
structure Options where
  axis : Option Axis
  intersect : Bool

/-- An event: either a pre-resolved synthetic carrier (the source's
`'native' in e` branch, returning `{x: e.x, y: e.y}` verbatim), or a raw
platform event.  Modelled from the spec: the external DOM-normalization
collaborator `helpers.dom.getRelativePosition` is out of scope, so a raw
event is represented by the chart-local position that collaborator returns
for it. -/
inductive REvent where
  | native (x y : ℚ)
  | raw (domPos : Pos)

/-- `getRelativePosition(e, chart)`: a native carrier yields its own
coordinates, a raw event yields the collaborator-resolved position. -/
def getRelativePosition (e : REvent) (_chart : Chart) : Pos :=
  match e with
  | .native x y => ⟨x, y⟩
  | .raw p => p

/-- Modelled from the spec: the external point-in-rectangle collaborator
`_isPointInArea(position, chartArea)` (helpers.canvas, not under `src/`)
tests membership of the position in the chart-area rectangle. -/
def isPointInArea (p : Pos) (r : Rect) : Bool :=
  decide (r.left ≤ p.x) && decide (p.x ≤ r.right) &&
    decide (r.top ≤ p.y) && decide (p.y ≤ r.bottom)

/-- Modelled from the spec: the external ascending sorted-array key lookup
`_lookupByKey(data, axis, value)` (helpers.collection, not under `src/`).
Per the spec it returns the tightest `{lo, hi}` index range bracketing the
target value, a lower-bound/upper-bound pairing: when elements with key
equal to `value` exist it is exactly their (contiguous) index range, and
otherwise it is the pair of nearest neighbors bracketing the value, clamped
into `[0, length-1]`. -/
def lookupByKey (data : List Element) (axis : Axis) (value : ℚ) : Lookup :=
  let keys := data.map (fun el => el.key axis)
  let lb := keys.countP (fun k => decide (k < value))
  let ub := keys.countP (fun k => decide (k ≤ value))
  if lb < ub then ⟨(lb : ℤ), (ub : ℤ) - 1⟩
  else ⟨max ((lb : ℤ) - 1) 0, min (lb : ℤ) ((keys.length : ℤ) - 1)⟩

/-- Modelled from the spec: the descending variant `_rlookupByKey`, used when
the index scale's pixel mapping is reversed (keys sorted in decreasing
order).  Same bracketing contract over the reversed order. -/
def rlookupByKey (data : List Element) (axis : Axis) (value : ℚ) : Lookup :=
  let keys := data.map (fun el => el.key axis)
  let lb := keys.countP (fun k => decide (value < k))
  let ub := keys.countP (fun k => decide (value ≤ k))
  if lb < ub then ⟨(lb : ℤ), (ub : ℤ) - 1⟩
  else ⟨max ((lb : ℤ) - 1) 0, min (lb : ℤ) ((keys.length : ℤ) - 1)⟩

/-- `binarySearch(metaset, axis, value, intersect)`: the search-range
computation.  Guard: index scale present, query axis equal to the scale's
axis, `_sorted` flag set, non-empty data; otherwise the full range
`{0, data.length - 1}`.  Non-intersect: the direct key lookup.  Intersect:
only with `_sharedOptions` and a nonzero numeric `getRange` of the first
element, the combination of lookups at `value - range` and `value + range`;
every other case falls through to the full range. -/
def binarySearch (metaset : Metaset) (axis : Axis) (value : ℚ)
    (intersect : Bool) : Lookup :=
  let data := metaset.data
  let dflt : Lookup := ⟨0, (data.length : ℤ) - 1⟩
  match metaset.iScale with
  | none => dflt
  | some iScale =>
    if axis = iScale.axis.toAxis ∧ metaset.sorted = true ∧ data.length ≠ 0 then
      let lookupMethod := if iScale.reversePixels then rlookupByKey else lookupByKey
      if ¬ intersect then
        lookupMethod data axis value
      else if metaset.sharedOptions then
        -- el := data[0]; the guard ensures data is non-empty, so the `none`
        -- branch below is unreachable.
        match data.head? with
        | some el =>
          match el.getRange axis with
          | some range =>
            if range ≠ 0 then
              let start := lookupMethod data axis (value - range)
              let stop := lookupMethod data axis (value + range)
              ⟨start.lo, stop.hi⟩
            else dflt
          | none => dflt
        | none => dflt
      else dflt
    else dflt

/-- `position[axis]`: the event coordinate along the query axis.  In the
source `position['xy']` is `undefined`; `binarySearch`'s guard
(`axis === iScale.axis`, and a scale's axis is never `'xy'`) means that
value is never consulted, so any placeholder is equivalent — we use `0`.
The irrelevance is proved in the development (`binarySearch` on axis `xy`
is constantly the full range). -/
def Pos.valueFor (p : Pos) : Axis → ℚ
  | .x => p.x
  | .y => p.y
  | .xy => 0

/-- The ordered list of `(element, datasetIndex, index)` triples on which
`evaluateAllVisibleItems(chart, handler)` invokes its handler: every visible
dataset in order, every element in index order, `skip`-flagged elements
excluded. -/
def allVisibleTriples (chart : Chart) : List Match :=
  chart.metasets.flatMap fun ms =>
    (ms.data.enum.filter fun p => !p.2.skip).map fun p => ⟨p.2, ms.index, p.1⟩

/-- The ordered list of triples on which
`optimizedEvaluateItems(chart, axis, position, handler, intersect)` invokes
its handler: per visible dataset, the sub-range `lo ≤ j ≤ hi` computed by
`binarySearch`, `skip`-flagged elements excluded.  Every range produced by
`binarySearch` lies within `[0, length-1]` (or is empty), so the source's
`for (j = lo; j <= hi)` loop visits exactly the in-bounds indices of that
range. -/
def optimizedTriples (chart : Chart) (axis : Axis) (position : Pos)
    (intersect : Bool) : List Match :=
  chart.metasets.flatMap fun ms =>
    let l := binarySearch ms axis (position.valueFor axis) intersect
    (ms.data.enum.filter fun p =>
        decide (l.lo ≤ (p.1 : ℤ)) && decide ((p.1 : ℤ) ≤ l.hi) && !p.2.skip).map
      fun p => ⟨p.2, ms.index, p.1⟩

/-- `axis.indexOf('x') !== -1`: the axis string contains `x`. -/
def Axis.useX : Axis → Bool
  | .x => true
  | .xy => true
  | .y => false

/-- `axis.indexOf('y') !== -1`: the axis string contains `y`. -/
def Axis.useY : Axis → Bool
  | .y => true
  | .xy => true
  | .x => false

/-- The distance metric of `getDistanceMetricForAxis(axis)`, with the final
`Math.sqrt` omitted: the source compares distances only with `<` and `===`
in `getNearestItems`, and the square root is strictly monotone and injective
on nonnegative arguments, so comparing the squared quantities
`deltaX² + deltaY²` produces the identical result lists while keeping the
development decidable over `ℚ`. -/
def distanceSq (axis : Axis) (pt1 pt2 : Pos) : ℚ :=
  let deltaX : ℚ := if axis.useX then |pt1.x - pt2.x| else 0
  let deltaY : ℚ := if axis.useY then |pt1.y - pt2.y| else 0
  deltaX ^ 2 + deltaY ^ 2

/-- `getIntersectItems(chart, position, axis)`: empty outside the chart
area; otherwise the matches from the optimized traversal (intersect flag
set) whose element's full 2D `inRange` test succeeds at the position. -/
def getIntersectItems (chart : Chart) (position : Pos) (axis : Axis) :
    List Match :=
  if !(isPointInArea position chart.chartArea) then []
  else
    (optimizedTriples chart axis position true).filter fun m =>
      m.element.inRange position.x position.y

/-- One handler step of `getNearestItems`: state `(minDistance, items)`,
where `none` stands for the initial `Number.POSITIVE_INFINITY`.  Skips
non-intersecting elements when `intersect` is set; a strictly smaller
distance resets the accumulator, an exactly equal one appends. -/
def nearStep (position : Pos) (axis : Axis) (intersect : Bool) :
    Option ℚ × List Match → Match → Option ℚ × List Match :=
  fun s t =>
    if intersect && !(t.element.inRange position.x position.y) then s
    else
      let d := distanceSq axis position t.element.getCenterPoint
      match s.1 with
      | none => (some d, [⟨t.element, t.datasetIndex, t.index⟩])
      | some m =>
        if d < m then (some d, [⟨t.element, t.datasetIndex, t.index⟩])
        else if d = m then (some m, s.2 ++ [⟨t.element, t.datasetIndex, t.index⟩])
        else s

/-- `getNearestItems(chart, position, axis, intersect)`: empty outside the
chart area; otherwise the fold of `nearStep` over the optimized traversal.
The source omits the `intersect` argument when calling
`optimizedEvaluateItems` here, so the range computation runs with
`intersect = undefined` (falsy), i.e. `false`. -/
def getNearestItems (chart : Chart) (position : Pos) (axis : Axis)
    (intersect : Bool) : List Match :=
  if !(isPointInArea position chart.chartArea) then []
  else
    ((optimizedTriples chart axis position false).foldl
      (nearStep position axis intersect) (none, [])).2

/-- The seed search shared by modes `index` and `dataset`:
`options.intersect ? getIntersectItems(...) : getNearestItems(...)`, the
latter with its `intersect` parameter omitted (hence `false`). -/
def seedItems (chart : Chart) (position : Pos) (axis : Axis)
    (intersect : Bool) : List Match :=
  if intersect then getIntersectItems chart position axis
  else getNearestItems chart position axis false

namespace Modes

/-- `modes.index(chart, e, options)`: default axis `x`; take the `index` of
the first seed match; across all visible datasets collect the element at
that index if present and not skipped. -/
def index (chart : Chart) (e : REvent) (options : Options) : List Match :=
  let position := getRelativePosition e chart
  let axis := options.axis.getD Axis.x
  let items := seedItems chart position axis options.intersect
  match items with
  | [] => []
  | it :: _ =>
    chart.metasets.filterMap fun meta =>
      match meta.data.get? it.index with
      | some element =>
        if element.skip then none
        else some ⟨element, meta.index, it.index⟩
      | none => none

/-- `modes.dataset(chart, e, options)`: default axis `xy`; take the
`datasetIndex` of the first seed match; return every element of that
dataset (the source's loop pushes `data[i]` for every `i`, with no skip
check). -/
def dataset (chart : Chart) (e : REvent) (options : Options) : List Match :=
  let position := getRelativePosition e chart
  let axis := options.axis.getD Axis.xy
  let items := seedItems chart position axis options.intersect
  match items with
  | [] => []
  | it :: _ =>
    let data := (chart.getDatasetMeta it.datasetIndex).data
    data.enum.map fun p => ⟨p.2, it.datasetIndex, p.1⟩

/-- `modes.point(chart, e, options)`: default axis `xy`; pure geometric
intersection over the optimized candidate range. -/
def point (chart : Chart) (e : REvent) (options : Options) : List Match :=
  let position := getRelativePosition e chart
  let axis := options.axis.getD Axis.xy
  getIntersectItems chart position axis

/-- `modes.nearest(chart, e, options)`: default axis `xy`. -/
def nearest (chart : Chart) (e : REvent) (options : Options) : List Match :=
  let position := getRelativePosition e chart
  let axis := options.axis.getD Axis.xy
  getNearestItems chart position axis options.intersect

/-- `modes.x(chart, e, options)`: full scan; collect elements whose
`inXRange` holds, separately track whether any element's full `inRange`
holds; with `options.intersect` and no intersecting element, empty.  The
source's single traversal applies two independent tests per element; it is
rendered as a filter and an `any` over the same ordered triple list. -/
def x (chart : Chart) (e : REvent) (options : Options) : List Match :=
  let position := getRelativePosition e chart
  let items := (allVisibleTriples chart).filter fun t =>
    t.element.inXRange position.x
  let intersectsItem := (allVisibleTriples chart).any fun t =>
    t.element.inRange position.x position.y
  if options.intersect && !intersectsItem then [] else items

/-- `modes.y(chart, e, options)`: symmetric to `x` using `inYRange`. -/
def y (chart : Chart) (e : REvent) (options : Options) : List Match :=
  let position := getRelativePosition e chart
  let items := (allVisibleTriples chart).filter fun t =>
    t.element.inYRange position.y
  let intersectsItem := (allVisibleTriples chart).any fun t =>
    t.element.inRange position.x position.y
  if options.intersect && !intersectsItem then [] else items

end Modes

/-! ### Basic traversal lemmas -/

/-- Every triple produced by the full traversal has a non-skipped element. -/
lemma allVisibleTriples_skip {chart : Chart} {t : Match}
    (ht : t ∈ allVisibleTriples chart) : t.element.skip = false := by
  rcases List.mem_flatMap.mp ht with ⟨ms, -, hmem⟩
  rcases List.mem_map.mp hmem with ⟨p, hp, rfl⟩
  have := (List.mem_filter.mp hp).2
  simpa using this

/-- Every triple produced by the optimized traversal has a non-skipped
element. -/
lemma optimizedTriples_skip {chart : Chart} {axis : Axis} {position : Pos}
    {intersect : Bool} {t : Match}
    (ht : t ∈ optimizedTriples chart axis position intersect) :
    t.element.skip = false := by
  rcases List.mem_flatMap.mp ht with ⟨ms, -, hmem⟩
  rcases List.mem_map.mp hmem with ⟨p, hp, rfl⟩
  have := (List.mem_filter.mp hp).2
  simp only [Bool.and_eq_true, Bool.not_eq_true'] at this
  exact this.2

/-- On axis `xy` the scale-axis guard of `binarySearch` always fails (a
scale's axis is `x` or `y`), so the computation returns the full range, for
every query value and intersect flag. -/
lemma binarySearch_xy (ms : Metaset) (v : ℚ) (i : Bool) :
    binarySearch ms Axis.xy v i = ⟨0, (ms.data.length : ℤ) - 1⟩ := by
  unfold binarySearch
  cases hsc : ms.iScale with
  | none => rfl
  | some sc =>
    have hneg : ¬(Axis.xy = sc.axis.toAxis ∧ ms.sorted = true ∧
        ms.data.length ≠ 0) := by
      rintro ⟨h1, -⟩
      cases h : sc.axis <;> rw [h] at h1 <;> simp [ScaleAxis.toAxis] at h1
    dsimp only
    rw [if_neg hneg]

/-!
### C10 — `xy` traversal equivalence
-/

/-- C10: for axis `xy` — the default axis of modes `dataset`, `point` and
`nearest` — `binarySearch` always returns the full range `{0, length-1}`
(the scale-axis guard can never match `xy`), and consequently the
range-restricted traversal `optimizedEvaluateItems` invokes the handler on
exactly the same `(element, datasetIndex, index)` triples, in the same
order, as the full linear traversal `evaluateAllVisibleItems` over visible
non-skipped elements. -/
theorem xy_axis_full_traversal :
    (∀ (ms : Metaset) (v : ℚ) (i : Bool),
      binarySearch ms Axis.xy v i = ⟨0, (ms.data.length : ℤ) - 1⟩) ∧
    (∀ (chart : Chart) (position : Pos) (intersect : Bool),
      optimizedTriples chart Axis.xy position intersect =
        allVisibleTriples chart) := by
  refine ⟨binarySearch_xy, fun chart position intersect => ?_⟩
  simp only [optimizedTriples, allVisibleTriples]
  congr 1
  funext ms
  rw [binarySearch_xy]
  congr 1
  refine List.filter_congr fun p hp => ?_
  have hlt : p.1 < ms.data.length := List.fst_lt_of_mem_enum hp
  have h0 : ((0 : ℤ) ≤ (p.1 : ℤ)) := Int.ofNat_nonneg p.1
  have h1 : ((p.1 : ℤ) ≤ (ms.data.length : ℤ) - 1) := by omega
  simp [h0, h1]

/-!
### C8 — fallback to the full range
-/

/-- C8: for every dataset that is not flagged sorted, or whose index scale's
axis differs from the query axis (including a missing index scale), or
which is empty, `binarySearch` returns the full range `{0, length-1}`. -/
theorem unsorted_full_range (ms : Metaset) (axis : Axis) (value : ℚ)
    (intersect : Bool)
    (h : ms.sorted = false ∨
      (∀ sc, ms.iScale = some sc → axis ≠ sc.axis.toAxis) ∨
      ms.data = []) :
    binarySearch ms axis value intersect = ⟨0, (ms.data.length : ℤ) - 1⟩ := by
  unfold binarySearch
  cases hsc : ms.iScale with
  | none => rfl
  | some sc =>
    have hneg : ¬(axis = sc.axis.toAxis ∧ ms.sorted = true ∧
        ms.data.length ≠ 0) := by
      rintro ⟨h1, h2, h3⟩
      rcases h with h | h | h
      · rw [h] at h2; cases h2
      · exact h sc hsc h1
      · exact h3 (by rw [h]; rfl)
    dsimp only
    rw [if_neg hneg]

/-! ### Characterization of `getNearestItems` -/

/-- The candidate pre-filter applied by the `getNearestItems` handler: with
`intersect` set, only elements whose full `inRange` test succeeds take part
in the distance competition. -/
def nearPass (position : Pos) (intersect : Bool) (t : Match) : Bool :=
  !(intersect && !(t.element.inRange position.x position.y))

/-- The (squared) distance from the event position to a candidate's center
point, along the metric axis. -/
def nearDist (position : Pos) (axis : Axis) (t : Match) : ℚ :=
  distanceSq axis position t.element.getCenterPoint

/-- The minimum of a list of rationals (`none` for the empty list). -/
def listMinQ : List ℚ → Option ℚ
  | [] => none
  | a :: r => some (r.foldr min a)

/-- What the `getNearestItems` fold computes inside the chart area: the
candidates passing the intersect pre-filter whose distance to the position
equals the minimum candidate distance, in traversal order. -/
def nearResult (position : Pos) (axis : Axis) (intersect : Bool)
    (l : List Match) : List Match :=
  match listMinQ ((l.filter (nearPass position intersect)).map
      (nearDist position axis)) with
  | none => []
  | some m =>
    (l.filter (nearPass position intersect)).filter fun t =>
      nearDist position axis t = m

section NearLemmas

variable (position : Pos) (axis : Axis) (intersect : Bool)

lemma nearPass_false {t : Match}
    (h : nearPass position intersect t = false) :
    (intersect && !(t.element.inRange position.x position.y)) = true := by
  unfold nearPass at h
  cases hb : (intersect && !(t.element.inRange position.x position.y))
  · rw [hb] at h; simp at h
  · rfl

lemma nearPass_true {t : Match}
    (h : nearPass position intersect t = true) :
    (intersect && !(t.element.inRange position.x position.y)) = false := by
  unfold nearPass at h
  cases hb : (intersect && !(t.element.inRange position.x position.y))
  · rfl
  · rw [hb] at h; simp at h

lemma nearStep_skip {t : Match} (h : nearPass position intersect t = false)
    (s : Option ℚ × List Match) :
    nearStep position axis intersect s t = s := by
  have hc := nearPass_false position intersect h
  unfold nearStep
  rw [if_pos hc]

lemma nearStep_none {t : Match} (h : nearPass position intersect t = true)
    (items : List Match) :
    nearStep position axis intersect (none, items) t =
      (some (nearDist position axis t), [t]) := by
  have hc := nearPass_true position intersect h
  unfold nearStep
  rw [if_neg (by simp [hc])]
  rfl

lemma nearStep_lt {t : Match} {m : ℚ}
    (h : nearPass position intersect t = true)
    (hlt : nearDist position axis t < m) (items : List Match) :
    nearStep position axis intersect (some m, items) t =
      (some (nearDist position axis t), [t]) := by
  have hc := nearPass_true position intersect h
  unfold nearDist at hlt ⊢
  unfold nearStep
  rw [if_neg (by simp [hc])]
  dsimp only
  rw [if_pos hlt]

lemma nearStep_eq {t : Match} {m : ℚ}
    (h : nearPass position intersect t = true)
    (heq : nearDist position axis t = m) (items : List Match) :
    nearStep position axis intersect (some m, items) t =
      (some m, items ++ [t]) := by
  have hc := nearPass_true position intersect h
  unfold nearDist at heq
  unfold nearStep
  rw [if_neg (by simp [hc])]
  dsimp only
  rw [if_neg (by rw [heq]; exact lt_irrefl m), if_pos heq]

lemma nearStep_gt {t : Match} {m : ℚ}
    (h : nearPass position intersect t = true)
    (hgt : m < nearDist position axis t) (items : List Match) :
    nearStep position axis intersect (some m, items) t =
      (some m, items) := by
  have hc := nearPass_true position intersect h
  unfold nearDist at hgt
  unfold nearStep
  rw [if_neg (by simp [hc])]
  dsimp only
  rw [if_neg (not_lt_of_gt hgt), if_neg (ne_of_gt hgt)]

lemma foldr_min_le_base (l : List ℚ) (b : ℚ) : l.foldr min b ≤ b := by
  induction l with
  | nil => exact le_rfl
  | cons a r ih => exact le_trans (min_le_right a _) ih

lemma foldr_min_base_le (l : List ℚ) {b a : ℚ} (h : b ≤ a) :
    l.foldr min b = min b (l.foldr min a) := by
  induction l with
  | nil => exact (min_eq_left h).symm
  | cons c r ih => rw [List.foldr_cons, List.foldr_cons, ih, min_left_comm]

lemma le_foldr_min {l : List ℚ} {c b : ℚ} (hb : c ≤ b)
    (h : ∀ x ∈ l, c ≤ x) : c ≤ l.foldr min b := by
  induction l with
  | nil => exact hb
  | cons a r ih =>
    exact le_min (h a (List.mem_cons_self a r))
      (ih fun x hx => h x (List.mem_cons_of_mem a hx))

lemma foldr_min_le_mem {l : List ℚ} {b x : ℚ} (hx : x ∈ l) :
    l.foldr min b ≤ x := by
  induction l with
  | nil => cases hx
  | cons a r ih =>
    rcases List.mem_cons.mp hx with rfl | hx
    · exact min_le_left x _
    · exact le_trans (min_le_right a _) (ih hx)

lemma listMinQ_le {l : List ℚ} {m x : ℚ} (hm : listMinQ l = some m)
    (hx : x ∈ l) : m ≤ x := by
  cases l with
  | nil => cases hx
  | cons a r =>
    injection hm with hm
    subst hm
    rcases List.mem_cons.mp hx with rfl | hx
    · exact foldr_min_le_base r x
    · exact foldr_min_le_mem hx

lemma le_listMinQ {l : List ℚ} {m c : ℚ} (hm : listMinQ l = some m)
    (h : ∀ x ∈ l, c ≤ x) : c ≤ m := by
  cases l with
  | nil => cases hm
  | cons a r =>
    injection hm with hm
    subst hm
    exact le_foldr_min (h a (List.mem_cons_self a r))
      fun x hx => h x (List.mem_cons_of_mem a hx)

/-- The accumulator-state invariant of the `getNearestItems` fold, started
from a finite current minimum `m` and current `items`. -/
lemma nearFold_go (l : List Match) : ∀ (m : ℚ) (items : List Match),
    (l.foldl (nearStep position axis intersect) (some m, items)).2 =
      (if ((l.filter (nearPass position intersect)).map
            (nearDist position axis)).foldr min m = m then items else [])
        ++ (l.filter (nearPass position intersect)).filter
            (fun t => nearDist position axis t =
              ((l.filter (nearPass position intersect)).map
                (nearDist position axis)).foldr min m) := by
  induction l with
  | nil => intro m items; simp
  | cons t ts ih =>
    intro m items
    by_cases hp : nearPass position intersect t = true
    · rw [List.filter_cons_of_pos hp, List.foldl_cons]
      rcases lt_trichotomy (nearDist position axis t) m with hlt | heq | hgt
      · rw [nearStep_lt position axis intersect hp hlt items, ih]
        have hkey : ((ts.filter (nearPass position intersect)).map
              (nearDist position axis)).foldr min (nearDist position axis t) =
            min (nearDist position axis t)
              (((ts.filter (nearPass position intersect)).map
                (nearDist position axis)).foldr min m) :=
          foldr_min_base_le _ hlt.le
        rw [hkey]
        set D := nearDist position axis t with hD
        set A := ((ts.filter (nearPass position intersect)).map
          (nearDist position axis)).foldr min m with hA
        have hm : min D A ≠ m := ne_of_lt (lt_of_le_of_lt (min_le_left D A) hlt)
        rw [List.map_cons, List.foldr_cons, if_neg hm, List.filter_cons]
        by_cases hDA : D = min D A
        · rw [if_pos hDA.symm, if_pos (by simp [← hDA])]
          simp
        · rw [if_neg (fun hcon => hDA hcon.symm), if_neg (by simp [hDA])]
      · rw [nearStep_eq position axis intersect hp heq items, ih]
        set D := nearDist position axis t with hD
        set A := ((ts.filter (nearPass position intersect)).map
          (nearDist position axis)).foldr min m with hA
        have hAm : A ≤ m := foldr_min_le_base _ m
        have hcons : (List.map (nearDist position axis)
              (t :: ts.filter (nearPass position intersect))).foldr min m =
            min D A := by
          rw [List.map_cons, List.foldr_cons]
        rw [hcons, min_eq_right (by rw [heq]; exact hAm), List.filter_cons]
        by_cases hAmeq : A = m
        · have hDA : D = A := by rw [heq, hAmeq]
          have hfpos : decide (nearDist position axis t = A) = true := by
            simp only [decide_eq_true_eq]
            rw [← hD]
            exact hDA
          rw [if_pos hAmeq, if_pos hAmeq, if_pos hfpos]
          simp
        · have hDA : ¬(D = A) := by
            rw [heq]
            exact fun hcon => hAmeq hcon.symm
          have hfneg : ¬(decide (nearDist position axis t = A) = true) := by
            simp only [decide_eq_true_eq]
            rw [← hD]
            exact hDA
          rw [if_neg hAmeq, if_neg hAmeq, if_neg hfneg]
      · rw [nearStep_gt position axis intersect hp hgt items, ih]
        set D := nearDist position axis t with hD
        set A := ((ts.filter (nearPass position intersect)).map
          (nearDist position axis)).foldr min m with hA
        have hAm : A ≤ m := foldr_min_le_base _ m
        have hcons : (List.map (nearDist position axis)
              (t :: ts.filter (nearPass position intersect))).foldr min m =
            min D A := by
          rw [List.map_cons, List.foldr_cons]
        have hDA : ¬(D = A) := by
          intro hcon
          rw [hcon] at hgt
          exact absurd (lt_of_le_of_lt hAm hgt) (lt_irrefl A)
        have hfneg : ¬(decide (nearDist position axis t = A) = true) := by
          simp only [decide_eq_true_eq]
          rw [← hD]
          exact hDA
        rw [hcons, min_eq_right (le_trans hAm hgt.le), List.filter_cons,
          if_neg hfneg]
    · rw [List.filter_cons_of_neg (by simpa using hp), List.foldl_cons,
        nearStep_skip position axis intersect
          (by simpa using hp) (some m, items), ih]

/-- Full characterization of the `getNearestItems` fold from its initial
state. -/
lemma nearFold_char (l : List Match) :
    (l.foldl (nearStep position axis intersect) (none, [])).2 =
      nearResult position axis intersect l := by
  cases hl : l.filter (nearPass position intersect) with
  | nil =>
    unfold nearResult
    rw [hl]
    have : ∀ l' : List Match,
        l'.filter (nearPass position intersect) = [] →
        (l'.foldl (nearStep position axis intersect) (none, [])).2 = [] := by
      intro l'
      induction l' with
      | nil => intro _; rfl
      | cons t ts ih =>
        intro hf
        rw [List.filter_cons] at hf
        by_cases hp : nearPass position intersect t = true
        · rw [if_pos hp] at hf; cases hf
        · rw [List.foldl_cons, nearStep_skip position axis intersect
            (by simpa using hp) (none, [])]
          exact ih (by rwa [if_neg (by simpa using hp)] at hf)
    simpa [listMinQ] using this l hl
  | cons t0 r =>
    -- Split `l` at the first passing candidate.
    clear hl
    induction l with
    | nil => rfl
    | cons t ts ih =>
      by_cases hp : nearPass position intersect t = true
      · rw [List.foldl_cons, nearStep_none position axis intersect hp,
          nearFold_go position axis intersect ts]
        unfold nearResult
        rw [List.filter_cons_of_pos hp, List.map_cons]
        set D := nearDist position axis t with hD
        set A := ((ts.filter (nearPass position intersect)).map
          (nearDist position axis)).foldr min D with hA
        have hminq : listMinQ (D :: (ts.filter (nearPass position intersect)).map
            (nearDist position axis)) = some A := rfl
        rw [hminq]
        dsimp only
        rw [List.filter_cons]
        by_cases hDA : A = D
        · have hfpos : decide (nearDist position axis t = A) = true := by
            simp only [decide_eq_true_eq]
            rw [← hD, hDA]
          rw [if_pos hDA, if_pos hfpos]
          simp
        · have hfneg : ¬(decide (nearDist position axis t = A) = true) := by
            simp only [decide_eq_true_eq]
            rw [← hD]
            exact fun hcon => hDA hcon.symm
          rw [if_neg hDA, if_neg hfneg]
          simp
      · rw [List.foldl_cons, nearStep_skip position axis intersect
          (by simpa using hp) (none, []), ih]
        unfold nearResult
        rw [List.filter_cons_of_neg (by simpa using hp)]

/-- Inside the chart area, `getNearestItems` returns exactly the
minimum-distance candidates, in traversal order. -/
lemma getNearestItems_char (chart : Chart)
    (h : isPointInArea position chart.chartArea = true) :
    getNearestItems chart position axis intersect =
      nearResult position axis intersect
        (optimizedTriples chart axis position false) := by
  unfold getNearestItems
  rw [h]
  simpa using nearFold_char position axis intersect _

/-- Every returned nearest item is one of the traversal's candidate
triples. -/
lemma getNearestItems_subset {chart : Chart} {t : Match}
    (ht : t ∈ getNearestItems chart position axis intersect) :
    t ∈ optimizedTriples chart axis position false := by
  by_cases h : isPointInArea position chart.chartArea = true
  · rw [getNearestItems_char position axis intersect chart h] at ht
    unfold nearResult at ht
    cases hm : listMinQ ((( optimizedTriples chart axis position false).filter
        (nearPass position intersect)).map (nearDist position axis)) with
    | none => rw [hm] at ht; cases ht
    | some m =>
      rw [hm] at ht
      exact (List.mem_filter.mp (List.mem_filter.mp ht).1).1
  · unfold getNearestItems at ht
    rw [Bool.not_eq_true] at h
    rw [h] at ht
    cases ht

end NearLemmas

/-! ### Mode-level membership lemmas -/

/-- Every intersect item is one of the optimized traversal's triples. -/
lemma getIntersectItems_subset {chart : Chart} {position : Pos} {axis : Axis}
    {m : Match} (hm : m ∈ getIntersectItems chart position axis) :
    m ∈ optimizedTriples chart axis position true := by
  unfold getIntersectItems at hm
  cases hc : isPointInArea position chart.chartArea with
  | false => rw [hc] at hm; simp at hm
  | true =>
    rw [hc] at hm
    have hm' : m ∈ (optimizedTriples chart axis position true).filter
        (fun mm => mm.element.inRange position.x position.y) := by
      simpa using hm
    exact (List.mem_filter.mp hm').1

/-- Every seed item of modes `index`/`dataset` is one of the optimized
traversal's triples (intersect flag matching the seed's branch). -/
lemma seedItems_subset {chart : Chart} {position : Pos} {axis : Axis}
    {intersect : Bool} {m : Match}
    (hm : m ∈ seedItems chart position axis intersect) :
    m ∈ optimizedTriples chart axis position true ∨
      m ∈ optimizedTriples chart axis position false := by
  unfold seedItems at hm
  cases intersect with
  | true => exact Or.inl (getIntersectItems_subset (by simpa using hm))
  | false =>
    exact Or.inr (getNearestItems_subset position axis false (by simpa using hm))

/-- With a non-empty seed, `modes.index` is the index-aligned collection
across all visible datasets at the first seed match's index. -/
lemma index_mode_eq (chart : Chart) (e : REvent) (options : Options)
    (it : Match) (rest : List Match)
    (hs : seedItems chart (getRelativePosition e chart)
        (options.axis.getD Axis.x) options.intersect = it :: rest) :
    Modes.index chart e options = chart.metasets.filterMap fun meta =>
      match meta.data.get? it.index with
      | some element =>
        if element.skip then none else some ⟨element, meta.index, it.index⟩
      | none => none := by
  unfold Modes.index
  dsimp only
  rw [hs]

/-- With an empty seed, `modes.index` is empty. -/
lemma index_mode_nil (chart : Chart) (e : REvent) (options : Options)
    (hs : seedItems chart (getRelativePosition e chart)
        (options.axis.getD Axis.x) options.intersect = []) :
    Modes.index chart e options = [] := by
  unfold Modes.index
  dsimp only
  rw [hs]

/-- Every `modes.x` result is one of the full traversal's triples. -/
lemma x_mode_subset {chart : Chart} {e : REvent} {options : Options}
    {m : Match} (hm : m ∈ Modes.x chart e options) :
    m ∈ allVisibleTriples chart := by
  unfold Modes.x at hm
  by_cases hc : (options.intersect &&
      !((allVisibleTriples chart).any fun t =>
        t.element.inRange (getRelativePosition e chart).x
          (getRelativePosition e chart).y)) = true
  · rw [if_pos hc] at hm; cases hm
  · rw [if_neg hc] at hm; exact (List.mem_filter.mp hm).1

/-- Every `modes.y` result is one of the full traversal's triples. -/
lemma y_mode_subset {chart : Chart} {e : REvent} {options : Options}
    {m : Match} (hm : m ∈ Modes.y chart e options) :
    m ∈ allVisibleTriples chart := by
  unfold Modes.y at hm
  by_cases hc : (options.intersect &&
      !((allVisibleTriples chart).any fun t =>
        t.element.inRange (getRelativePosition e chart).x
          (getRelativePosition e chart).y)) = true
  · rw [if_pos hc] at hm; cases hm
  · rw [if_neg hc] at hm; exact (List.mem_filter.mp hm).1

/-!
### C5 — tie completeness of `nearest`
-/

/-- C5: in nearest mode, for a position inside the chart area, every
candidate of the traversal that passes the intersect pre-filter and whose
computed distance to the position equals the minimum candidate distance
(exact equality of the computed metric, no epsilon) is contained in the
result — all tied candidates are returned, not just the first. -/
theorem nearest_tie_complete (chart : Chart) (e : REvent) (options : Options)
    (t : Match)
    (hin : isPointInArea (getRelativePosition e chart) chart.chartArea = true)
    (ht : t ∈ optimizedTriples chart (options.axis.getD Axis.xy)
      (getRelativePosition e chart) false)
    (hpass : nearPass (getRelativePosition e chart) options.intersect t = true)
    (hmin : ∀ t' ∈ optimizedTriples chart (options.axis.getD Axis.xy)
        (getRelativePosition e chart) false,
      nearPass (getRelativePosition e chart) options.intersect t' = true →
        nearDist (getRelativePosition e chart) (options.axis.getD Axis.xy) t ≤
          nearDist (getRelativePosition e chart) (options.axis.getD Axis.xy) t') :
    t ∈ Modes.nearest chart e options := by
  set pos := getRelativePosition e chart with hpos
  set ax := options.axis.getD Axis.xy with hax
  show t ∈ getNearestItems chart pos ax options.intersect
  rw [getNearestItems_char pos ax options.intersect chart hin]
  unfold nearResult
  have htf : t ∈ (optimizedTriples chart ax pos false).filter
      (nearPass pos options.intersect) := List.mem_filter.mpr ⟨ht, hpass⟩
  cases hm : listMinQ (((optimizedTriples chart ax pos false).filter
      (nearPass pos options.intersect)).map (nearDist pos ax)) with
  | none =>
    cases hfl : (optimizedTriples chart ax pos false).filter
        (nearPass pos options.intersect) with
    | nil => rw [hfl] at htf; cases htf
    | cons a r => rw [hfl] at hm; simp [listMinQ] at hm
  | some mu =>
    have hle : mu ≤ nearDist pos ax t :=
      listMinQ_le hm (List.mem_map_of_mem _ htf)
    have hge : nearDist pos ax t ≤ mu := by
      refine le_listMinQ hm ?_
      intro x hx
      rcases List.mem_map.mp hx with ⟨t', ht', rfl⟩
      exact hmin t' (List.mem_filter.mp ht').1 (List.mem_filter.mp ht').2
    refine List.mem_filter.mpr ⟨htf, ?_⟩
    simp only [decide_eq_true_eq]
    exact le_antisymm hge hle

/-!
### C1 — the skip invariant
-/

/-- C1 (amended): in modes `index`, `point`, `nearest`, `x` and `y`, no
returned match carries a `skip`-flagged element.  (Mode `dataset` is the
exception: its per-dataset expansion copies every element of the matched
dataset without a skip check — see the counterexample.) -/
theorem skip_never_included_amended (chart : Chart) (e : REvent)
    (options : Options) :
    ((Modes.index chart e options).all fun m => !m.element.skip) = true ∧
    ((Modes.point chart e options).all fun m => !m.element.skip) = true ∧
    ((Modes.nearest chart e options).all fun m => !m.element.skip) = true ∧
    ((Modes.x chart e options).all fun m => !m.element.skip) = true ∧
    ((Modes.y chart e options).all fun m => !m.element.skip) = true := by
  refine ⟨?_, ?_, ?_, ?_, ?_⟩ <;> refine List.all_eq_true.mpr ?_
  · intro m hm
    cases hs : seedItems chart (getRelativePosition e chart)
        (options.axis.getD Axis.x) options.intersect with
    | nil => rw [index_mode_nil chart e options hs] at hm; cases hm
    | cons it rest =>
      rw [index_mode_eq chart e options it rest hs] at hm
      rcases List.mem_filterMap.mp hm with ⟨meta, -, hf⟩
      split at hf
      · split at hf
        · exact Option.noConfusion hf
        · rename_i hsk
          injection hf with hf
          rw [← hf]
          simpa using hsk
      · exact Option.noConfusion hf
  · intro m hm
    have hm' : m ∈ getIntersectItems chart (getRelativePosition e chart)
        (options.axis.getD Axis.xy) := by simpa using hm
    have := optimizedTriples_skip (getIntersectItems_subset hm')
    simp [this]
  · intro m hm
    have := optimizedTriples_skip
      (getNearestItems_subset (getRelativePosition e chart)
        (options.axis.getD Axis.xy) options.intersect (by simpa using hm))
    simp [this]
  · intro m hm
    have := allVisibleTriples_skip (x_mode_subset hm)
    simp [this]
  · intro m hm
    have := allVisibleTriples_skip (y_mode_subset hm)
    simp [this]

/-!
### C2 — chart-area gating
-/

/-- C2 (amended): for a position outside the chart area, modes `index`,
`dataset`, `point` and `nearest` return an empty result (and, being total
functions, raise no error).  Modes `x` and `y` perform no chart-area check
— see the counterexample. -/
theorem outside_area_empty (chart : Chart) (e : REvent) (options : Options)
    (h : isPointInArea (getRelativePosition e chart) chart.chartArea = false) :
    Modes.index chart e options = [] ∧
    Modes.dataset chart e options = [] ∧
    Modes.point chart e options = [] ∧
    Modes.nearest chart e options = [] := by
  have hint : ∀ axis, getIntersectItems chart (getRelativePosition e chart)
      axis = [] := by
    intro axis
    unfold getIntersectItems
    rw [h]
    rfl
  have hnear : ∀ axis intersect, getNearestItems chart
      (getRelativePosition e chart) axis intersect = [] := by
    intro axis intersect
    unfold getNearestItems
    rw [h]
    rfl
  have hseed : ∀ axis intersect, seedItems chart
      (getRelativePosition e chart) axis intersect = [] := by
    intro axis intersect
    unfold seedItems
    cases intersect with
    | true => simpa using hint axis
    | false => simpa using hnear axis false
  refine ⟨?_, ?_, ?_, ?_⟩
  · exact index_mode_nil chart e options (hseed _ _)
  · unfold Modes.dataset
    dsimp only
    rw [hseed _ _]
  · exact hint _
  · exact hnear _ _

/-!
### C3 — the intersect-optimization fallback
-/

/-- C3 (amended): when intersect is requested but the dataset's
`sharedOptions` flag is false, or the first element reports no range /
a zero range for the query axis, `binarySearch` falls back directly to the
full range `{0, length-1}` — it never falls back to the exact-value
(non-intersect) lookup result. -/
theorem intersect_fallback_amended (ms : Metaset) (axis : Axis) (value : ℚ)
    (h : ms.sharedOptions = false ∨
      (ms.data.head?.bind fun el => el.getRange axis) = none ∨
      (ms.data.head?.bind fun el => el.getRange axis) = some 0) :
    binarySearch ms axis value true = ⟨0, (ms.data.length : ℤ) - 1⟩ := by
  unfold binarySearch
  cases hsc : ms.iScale with
  | none => rfl
  | some sc =>
    dsimp only
    by_cases hguard : axis = sc.axis.toAxis ∧ ms.sorted = true ∧
        ms.data.length ≠ 0
    · rw [if_pos hguard, if_neg (by simp)]
      cases hso : ms.sharedOptions with
      | false => rw [if_neg (by simp)]
      | true =>
        rw [if_pos rfl]
        cases hh : ms.data.head? with
        | none => rfl
        | some el =>
          dsimp only
          rcases h with h | h | h
          · rw [hso] at h; simp at h
          · rw [hh] at h
            simp only [Option.bind] at h
            rw [h]
          · rw [hh] at h
            simp only [Option.bind] at h
            rw [h]
            simp
    · rw [if_neg hguard]

end ChartInteraction

namespace ChartInteraction

/-!
### C6 — index alignment
-/

/-- C6: in index mode, when the initial nearest/intersect search resolves to
some first match `it` (so to index `it.index` in one dataset), the result
contains, for every visible dataset holding a present and non-skipped
element at that index, the match for that dataset's element at that index. -/
theorem index_alignment (chart : Chart) (e : REvent) (options : Options)
    (it : Match) (meta : Metaset) (el : Element)
    (hseed : (seedItems chart (getRelativePosition e chart)
        (options.axis.getD Axis.x) options.intersect).head? = some it)
    (hmeta : meta ∈ chart.metasets)
    (hel : meta.data.get? it.index = some el)
    (hskip : el.skip = false) :
    (⟨el, meta.index, it.index⟩ : Match) ∈ Modes.index chart e options := by
  cases hs : seedItems chart (getRelativePosition e chart)
      (options.axis.getD Axis.x) options.intersect with
  | nil => rw [hs] at hseed; cases hseed
  | cons it0 rest =>
    rw [hs] at hseed
    simp only [List.head?_cons, Option.some.injEq] at hseed
    subst hseed
    rw [index_mode_eq chart e options it0 rest hs]
    refine List.mem_filterMap.mpr ⟨meta, hmeta, ?_⟩
    rw [hel]
    simp [hskip]

/-!
### C7 — intersect gating of modes `x` and `y`
-/

/-- C7: in modes `x` and `y` with `intersect = true`, if no visible
non-skipped element's full 2D `inRange` test succeeds at the position, the
result is empty even when axis-range matches exist; with `intersect` false
or some element intersecting, all axis-range matches (in traversal order)
are returned. -/
theorem xy_intersect_gating (chart : Chart) (e : REvent) (options : Options) :
    ((options.intersect = true →
        ((allVisibleTriples chart).any fun t => t.element.inRange
          (getRelativePosition e chart).x (getRelativePosition e chart).y)
          = false →
        Modes.x chart e options = []) ∧
      ((options.intersect = false ∨
        ((allVisibleTriples chart).any fun t => t.element.inRange
          (getRelativePosition e chart).x (getRelativePosition e chart).y)
          = true) →
        Modes.x chart e options = (allVisibleTriples chart).filter fun t =>
          t.element.inXRange (getRelativePosition e chart).x)) ∧
    ((options.intersect = true →
        ((allVisibleTriples chart).any fun t => t.element.inRange
          (getRelativePosition e chart).x (getRelativePosition e chart).y)
          = false →
        Modes.y chart e options = []) ∧
      ((options.intersect = false ∨
        ((allVisibleTriples chart).any fun t => t.element.inRange
          (getRelativePosition e chart).x (getRelativePosition e chart).y)
          = true) →
        Modes.y chart e options = (allVisibleTriples chart).filter fun t =>
          t.element.inYRange (getRelativePosition e chart).y)) := by
  refine ⟨⟨?_, ?_⟩, ?_, ?_⟩
  · intro hi ha
    unfold Modes.x
    dsimp only
    rw [hi, ha]
    rfl
  · intro h
    unfold Modes.x
    dsimp only
    rcases h with h | h
    · rw [h]; rfl
    · rw [h]
      simp
  · intro hi ha
    unfold Modes.y
    dsimp only
    rw [hi, ha]
    rfl
  · intro h
    unfold Modes.y
    dsimp only
    rcases h with h | h
    · rw [h]; rfl
    · rw [h]
      simp

/-!
### C9 — shape of the index-mode result
-/

/-- With a per-match dataset-index projection agreeing with the traversed
metasets, the projected result is a sublist of the metasets' dataset
indices. -/
lemma filterMap_dsIndex_sublist (metasets : List Metaset)
    (f : Metaset → Option Match)
    (hf : ∀ ms m, f ms = some m → m.datasetIndex = ms.index) :
    List.Sublist ((metasets.filterMap f).map Match.datasetIndex)
      (metasets.map Metaset.index) := by
  induction metasets with
  | nil => simp
  | cons ms rest ih =>
    cases hfm : f ms with
    | none =>
      rw [List.filterMap_cons_none hfm, List.map_cons]
      exact List.Sublist.cons _ ih
    | some m =>
      rw [List.filterMap_cons_some hfm, List.map_cons, List.map_cons,
        hf ms m hfm]
      exact List.Sublist.cons₂ _ ih

/-- C9: when the index-mode result is non-empty, all returned matches share
the index of the first raw (seed) match, there is at most one match per
visible dataset (given distinct dataset indices among the visible
metasets), and each match's element is that dataset's element at the shared
index, non-skipped. -/
theorem index_mode_invariant (chart : Chart) (e : REvent) (options : Options)
    (hnd : (chart.metasets.map Metaset.index).Nodup) :
    ((Modes.index chart e options).map Match.datasetIndex).Nodup ∧
    ∀ m ∈ Modes.index chart e options,
      ∃ it, (seedItems chart (getRelativePosition e chart)
          (options.axis.getD Axis.x) options.intersect).head? = some it ∧
        m.index = it.index ∧
        ∃ meta ∈ chart.metasets, m.datasetIndex = meta.index ∧
          meta.data.get? it.index = some m.element ∧ m.element.skip = false := by
  cases hs : seedItems chart (getRelativePosition e chart)
      (options.axis.getD Axis.x) options.intersect with
  | nil =>
    rw [index_mode_nil chart e options hs]
    exact ⟨List.nodup_nil, by simp⟩
  | cons it rest =>
    rw [index_mode_eq chart e options it rest hs]
    constructor
    · refine List.Nodup.sublist (filterMap_dsIndex_sublist _ _ ?_) hnd
      intro ms m hfm
      split at hfm
      · split at hfm
        · exact Option.noConfusion hfm
        · injection hfm with hfm
          rw [← hfm]
      · exact Option.noConfusion hfm
    · intro m hm
      rcases List.mem_filterMap.mp hm with ⟨meta, hmeta, hf⟩
      refine ⟨it, by simp [hs], ?_⟩
      split at hf
      · rename_i el hg
        split at hf
        · exact Option.noConfusion hf
        · rename_i hsk
          injection hf with hf
          rw [← hf]
          exact ⟨rfl, meta, hmeta, rfl, by rw [hg],
            by simpa using hsk⟩
      · exact Option.noConfusion hf

end ChartInteraction

namespace ChartInteraction

/-!
### C4 — containment bounds for the sorted-key lookups
-/

lemma countP_le_of_false_from (keys : List ℚ) (p : ℚ → Bool) (j : Nat)
    (h : ∀ i, (hi : i < keys.length) → j ≤ i → p keys[i] = false) :
    keys.countP p ≤ j := by
  have hsplit : keys.countP p =
      (keys.take j).countP p + (keys.drop j).countP p := by
    rw [← List.countP_append, List.take_append_drop]
  have hdrop : (keys.drop j).countP p = 0 := by
    refine List.countP_eq_zero.mpr ?_
    intro a ha
    rcases List.mem_iff_getElem.mp ha with ⟨i, hi, rfl⟩
    have hlen : j + i < keys.length := by
      have := hi
      simp only [List.length_drop] at this
      omega
    have hfalse := h (j + i) hlen (Nat.le_add_right j i)
    rw [List.getElem_drop]
    simp [hfalse]
  have hle : (keys.take j).countP p ≤ j :=
    le_trans (List.countP_le_length p) (List.length_take_le j keys)
  omega

lemma le_countP_of_true_upto (keys : List ℚ) (p : ℚ → Bool) (j : Nat)
    (hj : j < keys.length)
    (h : ∀ i, (hi : i < keys.length) → i ≤ j → p keys[i] = true) :
    j + 1 ≤ keys.countP p := by
  have hsplit : keys.countP p =
      (keys.take (j + 1)).countP p + (keys.drop (j + 1)).countP p := by
    rw [← List.countP_append, List.take_append_drop]
  have htake : (keys.take (j + 1)).countP p = (keys.take (j + 1)).length := by
    refine List.countP_eq_length.mpr ?_
    intro a ha
    rcases List.mem_iff_getElem.mp ha with ⟨i, hi, rfl⟩
    have hi' : i < keys.length := by
      simp only [List.length_take] at hi
      omega
    have hij : i ≤ j := by
      simp only [List.length_take] at hi
      omega
    rw [List.getElem_take]
    simp [h i hi' hij]
  have hlen : (keys.take (j + 1)).length = j + 1 := by
    simp only [List.length_take]
    omega
  omega

lemma pairwise_le_getElem {keys : List ℚ}
    (hs : List.Pairwise (· ≤ ·) keys) {i j : Nat}
    (hi : i < keys.length) (hj : j < keys.length) (hij : i ≤ j) :
    keys[i] ≤ keys[j] := by
  rcases Nat.lt_or_ge i j with h | h
  · exact List.pairwise_iff_getElem.mp hs i j hi hj h
  · have : i = j := le_antisymm hij h
    subst this
    exact le_rfl

lemma pairwise_ge_getElem {keys : List ℚ}
    (hs : List.Pairwise (fun a b => b ≤ a) keys) {i j : Nat}
    (hi : i < keys.length) (hj : j < keys.length) (hij : i ≤ j) :
    keys[j] ≤ keys[i] := by
  rcases Nat.lt_or_ge i j with h | h
  · exact List.pairwise_iff_getElem.mp hs i j hi hj h
  · have : i = j := le_antisymm hij h
    subst this
    exact le_rfl

end ChartInteraction

namespace ChartInteraction

lemma lookupByKey_lo_le {data : List Element} {axis : Axis} {value w : ℚ}
    {j : Nat} {el : Element}
    (hs : List.Pairwise (· ≤ ·) (data.map fun e0 => e0.key axis))
    (hj : data.get? j = some el) (hk : el.key axis = value) (hw : w ≤ value) :
    (lookupByKey data axis w).lo ≤ (j : ℤ) := by
  obtain ⟨hjlen, hget⟩ := List.get?_eq_some.mp hj
  rw [List.get_eq_getElem] at hget
  have hklen : j < (data.map fun e0 => e0.key axis).length := by
    simpa using hjlen
  have hkj : (data.map fun e0 => e0.key axis)[j] = value := by
    rw [List.getElem_map, hget, hk]
  have hlb : (data.map fun e0 => e0.key axis).countP
      (fun k => decide (k < w)) ≤ j := by
    refine countP_le_of_false_from _ _ j ?_
    intro i hi hji
    have hge := pairwise_le_getElem hs hklen hi hji
    rw [hkj] at hge
    have hnot : ¬ ((data.map fun e0 => e0.key axis)[i] < w) :=
      not_lt.mpr (le_trans hw hge)
    simpa using hnot
  unfold lookupByKey
  dsimp only
  split
  · dsimp only
    exact_mod_cast hlb
  · dsimp only
    refine max_le ?_ (Int.ofNat_nonneg j)
    omega

lemma lookupByKey_le_hi {data : List Element} {axis : Axis} {value w : ℚ}
    {j : Nat} {el : Element}
    (hs : List.Pairwise (· ≤ ·) (data.map fun e0 => e0.key axis))
    (hj : data.get? j = some el) (hk : el.key axis = value) (hw : value ≤ w) :
    (j : ℤ) ≤ (lookupByKey data axis w).hi := by
  obtain ⟨hjlen, hget⟩ := List.get?_eq_some.mp hj
  rw [List.get_eq_getElem] at hget
  have hklen : j < (data.map fun e0 => e0.key axis).length := by
    simpa using hjlen
  have hkj : (data.map fun e0 => e0.key axis)[j] = value := by
    rw [List.getElem_map, hget, hk]
  have hub : j + 1 ≤ (data.map fun e0 => e0.key axis).countP
      (fun k => decide (k ≤ w)) := by
    refine le_countP_of_true_upto _ _ j hklen ?_
    intro i hi hij
    have hle := pairwise_le_getElem hs hi hklen hij
    rw [hkj] at hle
    simpa using le_trans hle hw
  have hlen : (data.map fun e0 => e0.key axis).length = data.length :=
    List.length_map ..
  unfold lookupByKey
  dsimp only
  split
  · dsimp only
    omega
  · rename_i hcond
    dsimp only
    refine le_min ?_ ?_ <;> omega

lemma rlookupByKey_lo_le {data : List Element} {axis : Axis} {value w : ℚ}
    {j : Nat} {el : Element}
    (hs : List.Pairwise (fun a b => b ≤ a) (data.map fun e0 => e0.key axis))
    (hj : data.get? j = some el) (hk : el.key axis = value) (hw : value ≤ w) :
    (rlookupByKey data axis w).lo ≤ (j : ℤ) := by
  obtain ⟨hjlen, hget⟩ := List.get?_eq_some.mp hj
  rw [List.get_eq_getElem] at hget
  have hklen : j < (data.map fun e0 => e0.key axis).length := by
    simpa using hjlen
  have hkj : (data.map fun e0 => e0.key axis)[j] = value := by
    rw [List.getElem_map, hget, hk]
  have hlb : (data.map fun e0 => e0.key axis).countP
      (fun k => decide (w < k)) ≤ j := by
    refine countP_le_of_false_from _ _ j ?_
    intro i hi hji
    have hle := pairwise_ge_getElem hs hklen hi hji
    rw [hkj] at hle
    have hnot : ¬ (w < (data.map fun e0 => e0.key axis)[i]) :=
      not_lt.mpr (le_trans hle hw)
    simpa using hnot
  unfold rlookupByKey
  dsimp only
  split
  · dsimp only
    exact_mod_cast hlb
  · dsimp only
    refine max_le ?_ (Int.ofNat_nonneg j)
    omega

lemma rlookupByKey_le_hi {data : List Element} {axis : Axis} {value w : ℚ}
    {j : Nat} {el : Element}
    (hs : List.Pairwise (fun a b => b ≤ a) (data.map fun e0 => e0.key axis))
    (hj : data.get? j = some el) (hk : el.key axis = value) (hw : w ≤ value) :
    (j : ℤ) ≤ (rlookupByKey data axis w).hi := by
  obtain ⟨hjlen, hget⟩ := List.get?_eq_some.mp hj
  rw [List.get_eq_getElem] at hget
  have hklen : j < (data.map fun e0 => e0.key axis).length := by
    simpa using hjlen
  have hkj : (data.map fun e0 => e0.key axis)[j] = value := by
    rw [List.getElem_map, hget, hk]
  have hub : j + 1 ≤ (data.map fun e0 => e0.key axis).countP
      (fun k => decide (w ≤ k)) := by
    refine le_countP_of_true_upto _ _ j hklen ?_
    intro i hi hij
    have hge := pairwise_ge_getElem hs hi hklen hij
    rw [hkj] at hge
    simpa using le_trans hw hge
  have hlen : (data.map fun e0 => e0.key axis).length = data.length :=
    List.length_map ..
  unfold rlookupByKey
  dsimp only
  split
  · dsimp only
    omega
  · rename_i hcond
    dsimp only
    refine le_min ?_ ?_ <;> omega

end ChartInteraction

namespace ChartInteraction

/-- C4 (amended): for a dataset genuinely sorted along the query axis in
the direction matching its scale's `reversePixels` flag, with nonnegative
reported element ranges, the range returned by `binarySearch` contains
every index whose element's axis value equals the query — provided that,
when the scale is pixel-reversed, the intersect optimization is not in use
(the reversed intersect combination `{lo: start.lo, hi: end.hi}` crosses
over and can exclude exact matches — see the counterexample). -/
theorem range_contains_amended (ms : Metaset) (axis : Axis) (value : ℚ)
    (intersect : Bool) (j : Nat) (el : Element)
    (hj : ms.data.get? j = some el)
    (hk : el.key axis = value)
    (hasc : ∀ sc, ms.iScale = some sc → sc.reversePixels = false →
      List.Pairwise (· ≤ ·) (ms.data.map fun e0 => e0.key axis))
    (hdesc : ∀ sc, ms.iScale = some sc → sc.reversePixels = true →
      List.Pairwise (fun a b => b ≤ a) (ms.data.map fun e0 => e0.key axis))
    (hr : ∀ r : ℚ, (ms.data.head?.bind fun e0 => e0.getRange axis) = some r →
      0 ≤ r)
    (hri : ∀ sc, ms.iScale = some sc → sc.reversePixels = true →
      intersect = false) :
    (binarySearch ms axis value intersect).lo ≤ (j : ℤ) ∧
      (j : ℤ) ≤ (binarySearch ms axis value intersect).hi := by
  have hjlen : j < ms.data.length := (List.get?_eq_some.mp hj).1
  have hdflt : ((⟨0, (ms.data.length : ℤ) - 1⟩ : Lookup)).lo ≤ (j : ℤ) ∧
      (j : ℤ) ≤ ((⟨0, (ms.data.length : ℤ) - 1⟩ : Lookup)).hi :=
    ⟨Int.ofNat_nonneg j, by dsimp only; omega⟩
  unfold binarySearch
  cases hsc : ms.iScale with
  | none => exact hdflt
  | some sc =>
    dsimp only
    by_cases hguard : axis = sc.axis.toAxis ∧ ms.sorted = true ∧
        ms.data.length ≠ 0
    · rw [if_pos hguard]
      cases hrev : sc.reversePixels with
      | false =>
        have hsorted := hasc sc hsc hrev
        simp only [if_neg Bool.false_ne_true]
        cases intersect with
        | false =>
          rw [if_pos Bool.false_ne_true]
          exact ⟨lookupByKey_lo_le hsorted hj hk le_rfl,
            lookupByKey_le_hi hsorted hj hk le_rfl⟩
        | true =>
          rw [if_neg (by simp)]
          cases hso : ms.sharedOptions with
          | false => rw [if_neg Bool.false_ne_true]; exact hdflt
          | true =>
            rw [if_pos rfl]
            cases hh : ms.data.head? with
            | none => exact hdflt
            | some e0 =>
              dsimp only
              cases hgr : e0.getRange axis with
              | none => exact hdflt
              | some r =>
                dsimp only
                have hr0 : 0 ≤ r := hr r (by rw [hh]; simpa using hgr)
                by_cases hrz : r = 0
                · rw [if_neg (not_not_intro hrz)]
                  exact hdflt
                · rw [if_pos hrz]
                  exact ⟨lookupByKey_lo_le hsorted hj hk (by linarith),
                    lookupByKey_le_hi hsorted hj hk (by linarith)⟩
      | true =>
        have hsorted := hdesc sc hsc hrev
        have hint : intersect = false := hri sc hsc hrev
        subst hint
        simp only [if_pos rfl]
        rw [if_pos Bool.false_ne_true]
        exact ⟨rlookupByKey_lo_le hsorted hj hk le_rfl,
          rlookupByKey_le_hi hsorted hj hk le_rfl⟩
    · rw [if_neg hguard]
      exact hdflt

end ChartInteraction

namespace ChartInteraction

/-!
### Concrete instances for counterexamples and witnesses
-/

/-- A point-like element with center `(cx, cy)`, square hit box of
half-width `r`, and `skip` flag `sk`. -/
def pEl (cx cy r : ℚ) (sk : Bool) : Element :=
  { x := cx
    y := cy
    skip := sk
    inRange := fun qx qy => decide (|qx - cx| ≤ r) && decide (|qy - cy| ≤ r)
    inXRange := fun qx => decide (|qx - cx| ≤ r)
    inYRange := fun qy => decide (|qy - cy| ≤ r)
    getCenterPoint := ⟨cx, cy⟩
    getRange := fun _ => some r }

/-- An element whose axis-range tests always succeed but whose full 2D
`inRange` test never does. -/
def bandEl : Element :=
  { x := 5
    y := 5
    skip := false
    inRange := fun _ _ => false
    inXRange := fun _ => true
    inYRange := fun _ => true
    getCenterPoint := ⟨5, 5⟩
    getRange := fun _ => none }

/-- An element with constant-valued geometry queries (no arithmetic),
centered at `(cx, cy)`. -/
def cEl (cx cy : ℚ) (inR : Bool) (sk : Bool) : Element :=
  { x := cx
    y := cy
    skip := sk
    inRange := fun _ _ => inR
    inXRange := fun _ => inR
    inYRange := fun _ => inR
    getCenterPoint := ⟨cx, cy⟩
    getRange := fun _ => none }

/-- One dataset whose second element is skipped (null data point). -/
def cexSkipMeta : Metaset :=
  ⟨0, [pEl 1 1 1 false, pEl 3 3 1 true], false, none, false⟩

def cexSkipChart : Chart :=
  ⟨[cexSkipMeta], ⟨0, 0, 10, 10⟩, fun _ => cexSkipMeta⟩

/-- One dataset holding the band element. -/
def cexAreaMeta : Metaset := ⟨0, [bandEl], false, none, false⟩

def cexAreaChart : Chart :=
  ⟨[cexAreaMeta], ⟨0, 0, 10, 10⟩, fun _ => cexAreaMeta⟩

/-- A sorted dataset (ascending x keys 10, 20, 30) whose controller does
not share options. -/
def cexFallbackMeta : Metaset :=
  ⟨0, [pEl 10 0 1 false, pEl 20 0 1 false, pEl 30 0 1 false], true,
    some ⟨ScaleAxis.x, false⟩, false⟩

/-- A dataset sorted descending along x (keys 30, 20, 10, matching its
pixel-reversed index scale), with shared options and element half-width
15. -/
def cexReversedMeta : Metaset :=
  ⟨0, [pEl 30 0 15 false, pEl 20 0 15 false, pEl 10 0 15 false], true,
    some ⟨ScaleAxis.x, true⟩, true⟩

/-- A sorted ascending dataset with shared options (for the C4 witness). -/
def wSortedMeta : Metaset :=
  ⟨0, [pEl 10 0 1 false, pEl 20 0 1 false, pEl 30 0 1 false], true,
    some ⟨ScaleAxis.x, false⟩, true⟩

/-- One dataset with two elements equidistant from the query position
`(2, 0)`. -/
def wTieMeta : Metaset :=
  ⟨0, [pEl 1 0 1 false, pEl 3 0 1 false], false, none, false⟩

def wTieChart : Chart :=
  ⟨[wTieMeta], ⟨0, 0, 10, 10⟩, fun _ => wTieMeta⟩

/-- Two visible datasets, both holding elements at indices 0 and 1; only
the elements at index 1 intersect the pointer. -/
def wIdxMetaA : Metaset :=
  ⟨0, [cEl 10 0 false false, cEl 20 0 true false], false, none, false⟩

def wIdxMetaB : Metaset :=
  ⟨1, [cEl 10 5 false false, cEl 20 5 true false], false, none, false⟩

def wIdxChart : Chart :=
  ⟨[wIdxMetaA, wIdxMetaB], ⟨0, 0, 100, 100⟩,
    fun i => if i = 0 then wIdxMetaA else wIdxMetaB⟩

/-!
### Counterexamples
-/

/-- C1 counterexample: mode `dataset` returns a match whose element has
`skip = true` — the per-dataset expansion copies every element of the
matched dataset without a skip check. -/
theorem skip_never_included_cex :
    ((Modes.dataset cexSkipChart (REvent.native 1 1) ⟨none, false⟩).any
      fun m => m.element.skip) = true := by decide

/-- C2 counterexample: mode `x` returns a non-empty result for a position
strictly outside the chart area — modes `x`/`y` have no chart-area gate. -/
theorem area_gating_cex :
    isPointInArea (getRelativePosition (REvent.native 50 50) cexAreaChart)
      cexAreaChart.chartArea = false ∧
    (Modes.x cexAreaChart (REvent.native 50 50) ⟨none, false⟩).length = 1 := by
  decide

/-- C3 counterexample: with intersect requested and `sharedOptions = false`
on a sorted dataset, `binarySearch` returns the full range `{0, 2}`, not
the exact-value (non-intersect) lookup result `{1, 1}`. -/
theorem intersect_fallback_cex :
    binarySearch cexFallbackMeta Axis.x 20 true = ⟨0, 2⟩ ∧
    lookupByKey cexFallbackMeta.data Axis.x 20 = ⟨1, 1⟩ ∧
    ((⟨0, 2⟩ : Lookup) ≠ (⟨1, 1⟩ : Lookup)) := by decide

/-- C4 counterexample: on a pixel-reversed (descending-key) sorted dataset
with the intersect optimization active, the combined range crosses over
(`{lo: 2, hi: 1}`, empty) and excludes index 2, whose element's axis value
equals the query value 10 exactly. -/
theorem range_contains_cex :
    List.Pairwise (fun a b => b ≤ a)
      (cexReversedMeta.data.map fun e0 => e0.key Axis.x) ∧
    ((cexReversedMeta.data.get? 2).map fun e0 => e0.key Axis.x) = some 10 ∧
    binarySearch cexReversedMeta Axis.x 10 true = ⟨2, 1⟩ ∧
    ¬ ((2 : ℤ) ≤ (binarySearch cexReversedMeta Axis.x 10 true).hi) := by
  have h3 : binarySearch cexReversedMeta Axis.x 10 true = ⟨2, 1⟩ := by
    show (⟨(rlookupByKey cexReversedMeta.data Axis.x (10 - 15)).lo,
        (rlookupByKey cexReversedMeta.data Axis.x (10 + 15)).hi⟩ : Lookup) =
      ⟨2, 1⟩
    rw [show (10 : ℚ) - 15 = -5 by norm_num,
      show (10 : ℚ) + 15 = 25 by norm_num,
      show rlookupByKey cexReversedMeta.data Axis.x (-5) = ⟨2, 2⟩ from
        by decide,
      show rlookupByKey cexReversedMeta.data Axis.x 25 = ⟨0, 1⟩ from
        by decide]
  exact ⟨by decide, by decide, h3, by rw [h3]; decide⟩

/-!
### Witnesses
-/

theorem outside_area_empty_witness :
    Modes.index cexAreaChart (REvent.native 50 50) ⟨none, false⟩ = [] ∧
    Modes.dataset cexAreaChart (REvent.native 50 50) ⟨none, false⟩ = [] ∧
    Modes.point cexAreaChart (REvent.native 50 50) ⟨none, false⟩ = [] ∧
    Modes.nearest cexAreaChart (REvent.native 50 50) ⟨none, false⟩ = [] :=
  outside_area_empty cexAreaChart (REvent.native 50 50) ⟨none, false⟩
    (by decide)

theorem intersect_fallback_witness :
    binarySearch cexFallbackMeta Axis.x 20 true =
      ⟨0, (cexFallbackMeta.data.length : ℤ) - 1⟩ :=
  intersect_fallback_amended cexFallbackMeta Axis.x 20 (Or.inl rfl)

theorem unsorted_full_range_witness :
    binarySearch cexSkipMeta Axis.x 0 false =
      ⟨0, (cexSkipMeta.data.length : ℤ) - 1⟩ :=
  unsorted_full_range cexSkipMeta Axis.x 0 false (Or.inl rfl)

theorem range_contains_witness :
    (binarySearch wSortedMeta Axis.x 20 true).lo ≤ (1 : ℤ) ∧
      (1 : ℤ) ≤ (binarySearch wSortedMeta Axis.x 20 true).hi :=
  range_contains_amended wSortedMeta Axis.x 20 true 1 (pEl 20 0 1 false)
    rfl rfl
    (fun _ _ _ => by decide)
    (fun sc hsc hrev => by
      rw [show wSortedMeta.iScale = some ⟨ScaleAxis.x, false⟩ from rfl] at hsc
      injection hsc with h
      subst h
      exact absurd hrev (by decide))
    (fun r hrr => by
      injection hrr with h
      rw [← h]
      norm_num)
    (fun sc hsc hrev => by
      rw [show wSortedMeta.iScale = some ⟨ScaleAxis.x, false⟩ from rfl] at hsc
      injection hsc with h
      subst h
      exact absurd hrev (by decide))

theorem nearest_tie_complete_witness :
    (⟨pEl 3 0 1 false, 0, 1⟩ : Match) ∈
      Modes.nearest wTieChart (REvent.native 2 0) ⟨none, false⟩ :=
  nearest_tie_complete wTieChart (REvent.native 2 0) ⟨none, false⟩
    ⟨pEl 3 0 1 false, 0, 1⟩ (by decide)
    (by
      show (⟨pEl 3 0 1 false, 0, 1⟩ : Match) ∈
        ([⟨pEl 1 0 1 false, 0, 0⟩, ⟨pEl 3 0 1 false, 0, 1⟩] : List Match)
      exact List.mem_cons_of_mem _ (List.mem_cons_self _ _))
    rfl
    (by
      intro t' ht' _
      have hmem : t' ∈
          ([⟨pEl 1 0 1 false, 0, 0⟩, ⟨pEl 3 0 1 false, 0, 1⟩] : List Match) :=
        ht'
      rcases List.mem_cons.mp hmem with rfl | hmem2
      · norm_num [nearDist, distanceSq, getRelativePosition, pEl,
          Axis.useX, Axis.useY, Option.getD]
      · rcases List.mem_cons.mp hmem2 with rfl | hmem3
        · exact le_rfl
        · cases hmem3)

theorem index_alignment_witness :
    (⟨cEl 20 5 true false, 1, 1⟩ : Match) ∈
      Modes.index wIdxChart (REvent.native 21 0) ⟨none, true⟩ :=
  index_alignment wIdxChart (REvent.native 21 0) ⟨none, true⟩
    ⟨cEl 20 0 true false, 0, 1⟩ wIdxMetaB (cEl 20 5 true false)
    rfl (List.mem_cons_of_mem _ (List.mem_cons_self _ _)) rfl rfl

theorem xy_intersect_gating_witness :
    Modes.x cexAreaChart (REvent.native 5 5) ⟨none, true⟩ = [] :=
  (xy_intersect_gating cexAreaChart (REvent.native 5 5) ⟨none, true⟩).1.1
    rfl (by decide)

theorem index_mode_invariant_witness :
    ((Modes.index wIdxChart (REvent.native 21 0) ⟨none, true⟩).map
      Match.datasetIndex).Nodup ∧
    ∀ m ∈ Modes.index wIdxChart (REvent.native 21 0) ⟨none, true⟩,
      ∃ it, (seedItems wIdxChart
          (getRelativePosition (REvent.native 21 0) wIdxChart)
          ((⟨none, true⟩ : Options).axis.getD Axis.x)
          (⟨none, true⟩ : Options).intersect).head? = some it ∧
        m.index = it.index ∧
        ∃ meta ∈ wIdxChart.metasets, m.datasetIndex = meta.index ∧
          meta.data.get? it.index = some m.element ∧
          m.element.skip = false :=
  index_mode_invariant wIdxChart (REvent.native 21 0) ⟨none, true⟩
    (by decide)

end ChartInteraction
